import Mathlib

/-!
Verification development for the Majority finality provider of checkpointz
(`pkg/beacon/majority.go`).

The Go code is shallowly embedded as pure Lean functions over an explicit
orchestrator state `MState`.  Roots (opaque 32-byte identifiers) are modelled
as `Nat`, compared only for equality.  Slots and epochs are `u64` values;
arithmetic that can wrap in Go (`fetchHistoricalCheckpoints`) is computed with
an explicit `% 2 ^ 64`.

The two bounded stores (`store.Block`, `store.BeaconState`) and the bundle
downloader are not part of the provided source; they are modelled from the
specification (sections 4.B and 4.C): the block store is an association of
block roots to expirations whose entry for root `r` holds the immutable block
with that root, the state store is the set of state roots held, and admissions
/ evictions appear as explicit transition steps.  Since the implementation
treats blocks as immutable and determined by their root, the block universe is
a fixed environment function `Env.blockOf : root → (slot, stateRoot)`.

Fallible Go calls to upstream nodes (`GetFinality`, `FetchBlock`, `GetSpec`,
`GetGenesis`) are inputs of the corresponding Lean functions; Go methods that
can only fail on malformed data (`block.StateRoot()`, `block.Slot()`, store
I/O errors) are modelled total.
-/

namespace Checkpointz

/-- A `phase0.Checkpoint`: finalized epoch and block root. -/
structure Checkpoint where
  epoch : Nat
  root : Nat
deriving DecidableEq

/-- `v1.Finality`.  Only the `Finalized` field is read by `majority.go`;
the `Justified` / `PreviousJustified` fields are never consulted and are
omitted.  A Go value whose pointer is `nil` or whose `Finalized` field is
`nil` is modelled as `none` at the use sites (`head`, `currentBundle`). -/
structure Finality where
  finalized : Checkpoint
deriving DecidableEq

/-- The content of a signed beacon block, as far as `majority.go` reads it:
`Slot()` and `StateRoot()`. -/
structure BlockInfo where
  slot : Nat
  stateRoot : Nat
deriving DecidableEq

/-- The block universe: blocks are immutable and content-addressed, so the
block with root `r` is fully determined by `r`. -/
structure Env where
  blockOf : Nat → BlockInfo

/-- Block store contents: list of `(block root, expires_at)` entries, most
recently added first.  The entry for root `r` holds the block `env.blockOf r`. -/
abbrev BlockStore := List (Nat × Nat)

/-- State store contents: the set (as a list) of state roots held. -/
abbrev StateStore := List Nat

/-- Does the block store hold a block with root `r`? -/
def blocksHasRoot (bs : BlockStore) (r : Nat) : Bool :=
  bs.any (fun p => p.1 == r)

/-- `store.Block.GetByRoot`: the root of the stored block with root `r`,
if present (`nil` in Go becomes `none`). -/
def blocksGetByRoot (bs : BlockStore) (r : Nat) : Option Nat :=
  if blocksHasRoot bs r then some r else none

/-- `store.Block.GetBySlot`: the root of a stored block whose slot is `sl`,
if any. -/
def blocksGetBySlot (env : Env) (bs : BlockStore) (sl : Nat) : Option Nat :=
  (bs.find? (fun p => (env.blockOf p.1).slot == sl)).map Prod.fst

/-- `store.BeaconState.GetByStateRoot`: the stored state (identified by its
state root) with root `sr`, if present. -/
def statesGetByStateRoot (ss : StateStore) (sr : Nat) : Option Nat :=
  if ss.contains sr then some sr else none

/-- The mutable fields of the `Majority` provider, plus the store and
downloader-queue contents. -/
structure MState where
  head : Option Finality
  currentBundle : Option Finality
  blocks : BlockStore
  states : StateStore
  queue : List Nat
deriving DecidableEq

/-- The provider right after `NewMajorityProvider`: `head` and
`currentBundle` are empty `v1.Finality` values (`Finalized` nil), the stores
and the download queue are empty. -/
def initialState : MState :=
  { head := none, currentBundle := none, blocks := [], states := [], queue := [] }

/-- Errors returned by `updateServingCheckpoint` / `checkFinality`. -/
inductive UErr where
  | blockNotFound
  | stateNotFound
  | notAligned (slot : Nat)
  | aggregationFailed
deriving DecidableEq

/-- Result of `updateServingCheckpoint`: the provider state afterwards and
the returned error, if any. -/
structure UpdResult where
  state : MState
  err : Option UErr
deriving DecidableEq

/-- The constant `slotsPerEpoch = 32` hardcoded inside
`updateServingCheckpoint` ("For simplicity we'll hardcode SLOTS_PER_EPOCH
to 32."). -/
def slotsPerEpochHardcoded : Nat := 32

/-- `Majority.updateServingCheckpoint`: look the block up by the checkpoint's
finalized root (absent: "block not found"), look its state up by the block's
state root (absent: "state not found"), require the block's slot to be an
epoch boundary for the hardcoded 32 ("block slot is not aligned from an epoch
boundary"), and only then set `currentBundle` to the checkpoint. -/
def updateServingCheckpoint (env : Env) (s : MState) (cp : Finality) : UpdResult :=
  match blocksGetByRoot s.blocks cp.finalized.root with
  | none => ⟨s, some .blockNotFound⟩
  | some r =>
    match statesGetByStateRoot s.states (env.blockOf r).stateRoot with
    | none => ⟨s, some .stateNotFound⟩
    | some _ =>
      if (env.blockOf r).slot % slotsPerEpochHardcoded ≠ 0 then
        ⟨s, some (.notAligned (env.blockOf r).slot)⟩
      else
        ⟨{ s with currentBundle := some cp }, none⟩

/-- The guard `x == nil || x.Finalized == nil || x.Finalized.Root !=
majority.Finalized.Root` used twice in `checkFinality` (for `head` and for
`currentBundle`). -/
def rootDiffers (o : Option Finality) (majority : Finality) : Bool :=
  match o with
  | none => true
  | some f => f.finalized.root != majority.finalized.root

/-- Result of one `checkFinality` tick: the provider state afterwards, the
`finality_head_updated` events published during the tick (in order), and the
returned error, if any. -/
structure TickResult where
  state : MState
  events : List Finality
  err : Option UErr
deriving DecidableEq

/-- The second half of `Majority.checkFinality` (after the head-update `if`):
when the majority root differs from `currentBundle`'s root (or `currentBundle`
is absent), attempt `updateServingCheckpoint` and return its error.  `s1` is
the provider state after the head update, `evs` the events published so far. -/
def checkFinalityServe (env : Env) (s1 : MState) (evs : List Finality)
    (majority : Finality) : TickResult :=
  if rootDiffers s1.currentBundle majority then
    ⟨(updateServingCheckpoint env s1 majority).state, evs,
      (updateServingCheckpoint env s1 majority).err⟩
  else
    ⟨s1, evs, none⟩

/-- `Majority.checkFinality`, from the point where the aggregated majority is
known.  The per-node `GetFinality` collection and the aggregator
(`NewCheckpoints(...).Majority()`, defined outside this file's source) are
summarized by the input `agg`: `none` when `Majority()` returned an error (the
tick then returns that error and changes nothing), `some majority` otherwise.
When the majority root differs from `head`'s root (or `head` is absent), the
head is replaced and one `finality_head_updated` event is published; then the
serving phase runs. -/
def checkFinality (env : Env) (s : MState) (agg : Option Finality) : TickResult :=
  match agg with
  | none => ⟨s, [], some .aggregationFailed⟩
  | some majority =>
    if rootDiffers s.head majority then
      checkFinalityServe env { s with head := some majority } [majority] majority
    else
      checkFinalityServe env s [] majority

/-- Errors returned by `checkGenesis`. -/
inductive GErr where
  | noNodesReady
  | fetchFailed
deriving DecidableEq

/-- Result of `checkGenesis`: the provider state afterwards, whether an
upstream was contacted (a `FetchBlock` call was issued), and the returned
error, if any. -/
structure GenesisResult where
  state : MState
  contacted : Bool
  err : Option GErr
deriving DecidableEq

/-- The no-op guard at the top of `checkGenesis`: the block store holds a
block at slot 0 and the state store holds that block's state. -/
def genesisStored (env : Env) (s : MState) : Bool :=
  match blocksGetBySlot env s.blocks 0 with
  | none => false
  | some r => (statesGetByStateRoot s.states (env.blockOf r).stateRoot).isSome

/-- `Majority.checkGenesis`.  `ready` says whether `nodes.Ready(ctx)` is
nonempty; `fetched` is the root of the genesis block obtained from
`FetchBlock(ctx, "genesis")` on the randomly chosen ready node (`none` when
the fetch, or `Root()`, failed).  `RandomNode` on a nonempty list and
`AddToQueue` are modelled as succeeding. -/
def checkGenesis (env : Env) (s : MState) (ready : Bool) (fetched : Option Nat) :
    GenesisResult :=
  if genesisStored env s then ⟨s, false, none⟩
  else if !ready then ⟨s, false, some .noNodesReady⟩
  else
    match fetched with
    | none => ⟨s, true, some .fetchFailed⟩
    | some root =>
      if s.queue.contains root then ⟨s, true, none⟩
      else ⟨{ s with queue := root :: s.queue }, true, none⟩

/-- 2^64: slots and epochs are Go `uint64` values. -/
def U64 : Nat := 2 ^ 64

/-- Truncation to `uint64`. -/
def u64 (n : Nat) : Nat := n % U64

/-- Go `uint64` subtraction `a - b` (wraps on underflow). -/
def sub64 (a b : Nat) : Nat := (u64 a + (U64 - u64 b)) % U64

/-- The `3 * 24 * time.Hour` default TTL passed to `CalculateBlockExpiration`,
in seconds. -/
def defaultTTLSeconds : Nat := 3 * 24 * 60 * 60

/-- Modelled from the spec: `CalculateBlockExpiration` is not part of the
provided source (only its call site in `fetchHistoricalCheckpoints` is).  Per
the specification, the expiration admitted for the block at slot `s` is
`min(now + 3 days, genesis_time + (s + SLOT_LOOKAHEAD) * SecondsPerSlot)`;
the lookahead argument is the value the call site passes in third position,
namely `SlotsPerEpoch`.  Times are seconds since the epoch. -/
def calculateBlockExpiration (slot secondsPerSlot lookahead genesisTime defaultTTL now : Nat) :
    Nat :=
  min (now + defaultTTL) (genesisTime + (slot + lookahead) * secondsPerSlot)

/-- Outcome of `upstream.Beacon.FetchBlock(ctx, slot)`: an error, a `nil`
block, or a block (identified by its root). -/
inductive FetchRes where
  | fail
  | nilBlock
  | found (r : Nat)
deriving DecidableEq

/-- What `fetchHistoricalCheckpoints` obtains from the randomly selected
ready data-provider node: `GetSpec` (slots per epoch, seconds per slot),
`GetGenesis` (genesis time), and its `FetchBlock`-by-slot behaviour. -/
structure HistEnv where
  slotsPerEpoch : Nat
  secondsPerSlot : Nat
  genesisTime : Nat
  fetch : Nat → FetchRes

/-- Errors returned by `fetchHistoricalCheckpoints`. -/
inductive HErr where
  | noDataProvider
  | fetchFailed
deriving DecidableEq

/-- Result of `fetchHistoricalCheckpoints`: the provider state afterwards
(block admissions survive an abort later in the loop, as in Go), the
`(slot, expires_at)` pairs fetched and admitted in iteration order, and the
returned error, if any. -/
structure HistResult where
  state : MState
  added : List (Nat × Nat)
  err : Option HErr
deriving DecidableEq

/-- The expiration `fetchHistoricalCheckpoints` admits for the block at the
given slot: `CalculateBlockExpiration(slot, sp.SecondsPerSlot,
uint64(sp.SlotsPerEpoch), genesis.GenesisTime, 3*24*time.Hour)`. -/
def histExpiration (he : HistEnv) (now slot : Nat) : Nat :=
  calculateBlockExpiration slot he.secondsPerSlot he.slotsPerEpoch he.genesisTime
    defaultTTLSeconds now

/-- The slot requested at loop index `i`:
`currentSlot - i*SlotsPerEpoch` in `uint64` arithmetic. -/
def histSlot (he : HistEnv) (currentSlot i : Nat) : Nat :=
  sub64 currentSlot (u64 (i * he.slotsPerEpoch))

/-- The `for i := 1; i < historicalDistance; i++` loop of
`fetchHistoricalCheckpoints`: skip when `currentSlot - i*SlotsPerEpoch == 0`
(`uint64` arithmetic), skip when the block store already has a block at that
slot, otherwise fetch the block by slot (an error aborts the whole loop, a
`nil` block is skipped) and admit it with the `CalculateBlockExpiration`
expiration. -/
def histLoop (env : Env) (he : HistEnv) (now currentSlot : Nat) :
    List Nat → MState → HistResult
  | [], s => ⟨s, [], none⟩
  | i :: rest, s =>
    if histSlot he currentSlot i = 0 then histLoop env he now currentSlot rest s
    else
      match blocksGetBySlot env s.blocks (histSlot he currentSlot i) with
      | some _ => histLoop env he now currentSlot rest s
      | none =>
        match he.fetch (histSlot he currentSlot i) with
        | .fail => ⟨s, [], some .fetchFailed⟩
        | .nilBlock => histLoop env he now currentSlot rest s
        | .found r =>
          ⟨(histLoop env he now currentSlot rest
              { s with blocks :=
                  (r, histExpiration he now (histSlot he currentSlot i)) :: s.blocks }).state,
            (histSlot he currentSlot i, histExpiration he now (histSlot he currentSlot i)) ::
              (histLoop env he now currentSlot rest
                { s with blocks :=
                    (r, histExpiration he now (histSlot he currentSlot i)) :: s.blocks }).added,
            (histLoop env he now currentSlot rest
              { s with blocks :=
                  (r, histExpiration he now (histSlot he currentSlot i)) :: s.blocks }).err⟩

/-- `historicalDistance := uint64(10)`. -/
def historicalDistance : Nat := 10

/-- `Majority.fetchHistoricalCheckpoints`, the head-updated subscriber that
back-fills the previous epoch boundaries.  `provider` is `none` when no ready
data-provider node is available (or its `GetSpec` / `GetGenesis` call failed),
otherwise the selected node's data.  `currentSlot` is
`Finalized.Epoch * SlotsPerEpoch` in `uint64` arithmetic and the loop runs
`i = 1, ..., historicalDistance - 1`. -/
def fetchHistoricalCheckpoints (env : Env) (provider : Option HistEnv) (s : MState)
    (now : Nat) (cp : Finality) : HistResult :=
  match provider with
  | none => ⟨s, [], some .noDataProvider⟩
  | some he =>
    histLoop env he now (u64 (cp.finalized.epoch * he.slotsPerEpoch))
      (List.range' 1 (historicalDistance - 1)) s

/-- Error surfaced by the query API when a block is absent
(`errors.New("block not found")`). -/
inductive QErr where
  | blockNotFound
deriving DecidableEq

/-- `Majority.GetBlockBySlot`: the stored block (identified by its root) at
the given slot, or "block not found". -/
def GetBlockBySlot (env : Env) (s : MState) (slot : Nat) : Except QErr Nat :=
  match blocksGetBySlot env s.blocks slot with
  | none => .error .blockNotFound
  | some r => .ok r

/-- `Majority.GetBlockByRoot`: the stored block with the given root, or
"block not found". -/
def GetBlockByRoot (env : Env) (s : MState) (root : Nat) : Except QErr Nat :=
  match blocksGetByRoot s.blocks root with
  | none => .error .blockNotFound
  | some r => .ok r

/-- `Majority.GetBeaconStateBySlot`: fetch the block by slot first, then
return the state store's lookup by the block's state root. -/
def GetBeaconStateBySlot (env : Env) (s : MState) (slot : Nat) :
    Except QErr (Option Nat) :=
  match GetBlockBySlot env s slot with
  | .error e => .error e
  | .ok r => .ok (statesGetByStateRoot s.states (env.blockOf r).stateRoot)

/-- `Majority.GetBeaconStateByRoot`: fetch the block by its root first, then
return the state store's lookup by the block's state root. -/
def GetBeaconStateByRoot (env : Env) (s : MState) (root : Nat) :
    Except QErr (Option Nat) :=
  match GetBlockByRoot env s root with
  | .error e => .error e
  | .ok r => .ok (statesGetByStateRoot s.states (env.blockOf r).stateRoot)

/-- A store access (by key) issued against the block store or the state
store; "touching" an entry refreshes its recency in the bounded caches. -/
inductive StoreAccess where
  | blockByRoot (r : Nat)
  | blockBySlot (sl : Nat)
  | stateByStateRoot (sr : Nat)
deriving DecidableEq

/-- The store accesses `updateServingCheckpoint` issues, in order:
`blocks.GetByRoot(checkpoint.Finalized.Root)` always, then
`states.GetByStateRoot(block.StateRoot())` when the block was found
(`block.Slot()` is not a store access). -/
def updateServingAccesses (env : Env) (s : MState) (cp : Finality) : List StoreAccess :=
  match blocksGetByRoot s.blocks cp.finalized.root with
  | none => [.blockByRoot cp.finalized.root]
  | some r => [.blockByRoot cp.finalized.root, .stateByStateRoot (env.blockOf r).stateRoot]

/-- The store accesses one `checkFinality` tick issues: none outside
`updateServingCheckpoint` (the finality collection and head update only talk
to upstream nodes and to the `head` field). -/
def checkFinalityAccesses (env : Env) (s : MState) (agg : Option Finality) :
    List StoreAccess :=
  match agg with
  | none => []
  | some majority =>
    let s1 := if rootDiffers s.head majority then { s with head := some majority } else s
    if rootDiffers s1.currentBundle majority then updateServingAccesses env s1 majority
    else []

/-- The store accesses `checkGenesis` issues: `blocks.GetBySlot(0)` always,
then `states.GetByStateRoot(block.StateRoot())` when the slot-0 block was
found (the rest of the function talks to upstream nodes and to the download
queue only). -/
def checkGenesisAccesses (env : Env) (s : MState) : List StoreAccess :=
  match blocksGetBySlot env s.blocks 0 with
  | none => [.blockBySlot 0]
  | some r => [.blockBySlot 0, .stateByStateRoot (env.blockOf r).stateRoot]

/-- Transitions of the orchestrator that do not evict cache entries: a
`checkFinality` tick, the one-shot `checkGenesis`, a `fetchHistoricalCheckpoints`
subscriber run, the `handleFinalityUpdated` subscriber enqueuing a root, and
(modelled from the spec, section 4.C) the bundle downloader admitting a block
or a state to the stores.  Upstream responses (`agg`, `fetched`, `provider`)
are free inputs of each step. -/
inductive StepNE (env : Env) : MState → MState → Prop
  | tick (s : MState) (agg : Option Finality) :
      StepNE env s (checkFinality env s agg).state
  | genesis (s : MState) (ready : Bool) (fetched : Option Nat) :
      StepNE env s (checkGenesis env s ready fetched).state
  | historical (s : MState) (provider : Option HistEnv) (now : Nat) (cp : Finality) :
      StepNE env s (fetchHistoricalCheckpoints env provider s now cp).state
  | enqueue (s : MState) (r : Nat) :
      StepNE env s { s with queue := r :: s.queue }
  | addBlock (s : MState) (r e : Nat) :
      StepNE env s { s with blocks := (r, e) :: s.blocks }
  | addState (s : MState) (sr : Nat) :
      StepNE env s { s with states := sr :: s.states }

/-- All transitions: the non-evicting ones, plus (modelled from the spec,
section 4.B) the bounded caches evicting an entry on TTL expiry or capacity
pressure — any block entry except a slot-0 (genesis) one, and any state
entry. -/
inductive Step (env : Env) : MState → MState → Prop
  | noEvict {s t : MState} : StepNE env s t → Step env s t
  | evictBlock (s : MState) (r : Nat) :
      (env.blockOf r).slot ≠ 0 →
      Step env s { s with blocks := s.blocks.filter (fun p => p.1 != r) }
  | evictState (s : MState) (sr : Nat) :
      Step env s { s with states := s.states.erase sr }

/-- States reachable from startup without any cache eviction. -/
inductive ReachableNE (env : Env) : MState → Prop
  | init : ReachableNE env initialState
  | step {s t : MState} : ReachableNE env s → StepNE env s t → ReachableNE env t

/-- States reachable from startup. -/
inductive Reachable (env : Env) : MState → Prop
  | init : Reachable env initialState
  | step {s t : MState} : Reachable env s → Step env s t → Reachable env t

/-- The serving closure and alignment property: whenever `currentBundle`
holds a finality value `F`, the block store has a block with root
`F.Finalized.Root`, the state store has a state with root equal to that
block's `StateRoot()`, and that block's slot is a multiple of the hardcoded
`SLOTS_PER_EPOCH = 32`. -/
def servingOK (env : Env) (s : MState) : Prop :=
  ∀ cp : Finality, s.currentBundle = some cp →
    blocksHasRoot s.blocks cp.finalized.root = true ∧
    s.states.contains (env.blockOf cp.finalized.root).stateRoot = true ∧
    (env.blockOf cp.finalized.root).slot % slotsPerEpochHardcoded = 0

/-- A sample block universe used to instantiate theorems on concrete inputs:
root 5 is an epoch-boundary block (slot 32) whose state root is 7; root 1 is
the genesis block (slot 0) whose state root is 2; every other root holds a
misaligned block at slot 33. -/
def demoEnv : Env :=
  ⟨fun r => if r == 5 then ⟨32, 7⟩ else if r == 1 then ⟨0, 2⟩ else ⟨33, r + 100⟩⟩

/-- A successful `blocksGetByRoot` returns the requested root, and the store
has it. -/
lemma blocksGetByRoot_eq_some (bs : BlockStore) (r x : Nat)
    (h : blocksGetByRoot bs r = some x) : x = r ∧ blocksHasRoot bs r = true := by
  unfold blocksGetByRoot at h
  by_cases hh : blocksHasRoot bs r = true
  · simp [hh] at h
    exact ⟨h.symm, hh⟩
  · simp [hh] at h

/-- A successful `statesGetByStateRoot` means the store has the root. -/
lemma statesGetByStateRoot_eq_some (ss : StateStore) (sr x : Nat)
    (h : statesGetByStateRoot ss sr = some x) : ss.contains sr = true := by
  unfold statesGetByStateRoot at h
  by_cases hh : ss.contains sr = true
  · exact hh
  · rw [if_neg hh] at h
    exact Option.noConfusion h

/-- Case analysis on `updateServingCheckpoint`: either it fails and leaves
the provider state unchanged, or it succeeds, sets `currentBundle` to its
argument, changes nothing else, and its three preconditions held. -/
lemma upd_cases (env : Env) (s : MState) (cp : Finality) :
    ((updateServingCheckpoint env s cp).state = s ∧
     (updateServingCheckpoint env s cp).err ≠ none) ∨
    ((updateServingCheckpoint env s cp).err = none ∧
     (updateServingCheckpoint env s cp).state = { s with currentBundle := some cp } ∧
     blocksHasRoot s.blocks cp.finalized.root = true ∧
     s.states.contains (env.blockOf cp.finalized.root).stateRoot = true ∧
     (env.blockOf cp.finalized.root).slot % slotsPerEpochHardcoded = 0) := by
  unfold updateServingCheckpoint
  split
  · exact Or.inl ⟨rfl, by simp⟩
  · rename_i r hb
    split
    · exact Or.inl ⟨rfl, by simp⟩
    · rename_i x hs
      split
      · exact Or.inl ⟨rfl, by simp⟩
      · rename_i ha
        obtain ⟨hrx, hhas⟩ := blocksGetByRoot_eq_some _ _ _ hb
        have hcontains := statesGetByStateRoot_eq_some _ _ _ hs
        subst hrx
        exact Or.inr ⟨rfl, rfl, hhas, hcontains, not_ne_iff.mp ha⟩

/-- On any failure, `updateServingCheckpoint` leaves the whole provider state
unchanged. -/
lemma upd_state_of_err (env : Env) (s : MState) (cp : Finality)
    (h : (updateServingCheckpoint env s cp).err ≠ none) :
    (updateServingCheckpoint env s cp).state = s := by
  rcases upd_cases env s cp with ⟨h1, _⟩ | ⟨h1, _⟩
  · exact h1
  · exact absurd h1 h

/-- On success, `updateServingCheckpoint` sets `currentBundle` to its
argument, changes nothing else, and its three preconditions held. -/
lemma upd_success (env : Env) (s : MState) (cp : Finality)
    (h : (updateServingCheckpoint env s cp).err = none) :
    (updateServingCheckpoint env s cp).state = { s with currentBundle := some cp } ∧
    blocksHasRoot s.blocks cp.finalized.root = true ∧
    s.states.contains (env.blockOf cp.finalized.root).stateRoot = true ∧
    (env.blockOf cp.finalized.root).slot % slotsPerEpochHardcoded = 0 := by
  rcases upd_cases env s cp with ⟨_, h2⟩ | ⟨_, hrest⟩
  · exact absurd h h2
  · exact hrest

/-- `updateServingCheckpoint` never touches the `head` field. -/
lemma upd_head_eq (env : Env) (s : MState) (cp : Finality) :
    (updateServingCheckpoint env s cp).state.head = s.head := by
  rcases upd_cases env s cp with ⟨h1, _⟩ | ⟨_, h1, _⟩ <;> rw [h1]

/-- `updateServingCheckpoint` never touches the block store. -/
lemma upd_blocks_eq (env : Env) (s : MState) (cp : Finality) :
    (updateServingCheckpoint env s cp).state.blocks = s.blocks := by
  rcases upd_cases env s cp with ⟨h1, _⟩ | ⟨_, h1, _⟩ <;> rw [h1]

/-- `updateServingCheckpoint` never touches the state store. -/
lemma upd_states_eq (env : Env) (s : MState) (cp : Finality) :
    (updateServingCheckpoint env s cp).state.states = s.states := by
  rcases upd_cases env s cp with ⟨h1, _⟩ | ⟨_, h1, _⟩ <;> rw [h1]

/-- C2: `updateServingCheckpoint(C)` fails with "block not found" when the
block store lacks `C.Finalized.Root`; fails with "state not found" when the
block is there but the state store lacks its state root; fails with the
alignment error when block and state are there but the block's slot is not a
multiple of 32; every failure leaves the provider state (in particular
`currentBundle`) unchanged; and when all three preconditions hold it sets
`currentBundle = C` and changes nothing else. -/
theorem C2_updateServingCheckpoint_spec (env : Env) (s : MState) (cp : Finality) :
    (blocksGetByRoot s.blocks cp.finalized.root = none →
      updateServingCheckpoint env s cp = ⟨s, some UErr.blockNotFound⟩) ∧
    (∀ r, blocksGetByRoot s.blocks cp.finalized.root = some r →
      statesGetByStateRoot s.states (env.blockOf r).stateRoot = none →
      updateServingCheckpoint env s cp = ⟨s, some UErr.stateNotFound⟩) ∧
    (∀ r, blocksGetByRoot s.blocks cp.finalized.root = some r →
      statesGetByStateRoot s.states (env.blockOf r).stateRoot ≠ none →
      (env.blockOf r).slot % 32 ≠ 0 →
      updateServingCheckpoint env s cp = ⟨s, some (UErr.notAligned (env.blockOf r).slot)⟩) ∧
    ((updateServingCheckpoint env s cp).err ≠ none →
      (updateServingCheckpoint env s cp).state = s) ∧
    (∀ r, blocksGetByRoot s.blocks cp.finalized.root = some r →
      statesGetByStateRoot s.states (env.blockOf r).stateRoot ≠ none →
      (env.blockOf r).slot % 32 = 0 →
      updateServingCheckpoint env s cp = ⟨{ s with currentBundle := some cp }, none⟩) := by
  refine ⟨?_, ?_, ?_, upd_state_of_err env s cp, ?_⟩
  · intro hb
    simp [updateServingCheckpoint, hb]
  · intro r hb hs
    simp [updateServingCheckpoint, hb, hs]
  · intro r hb hs ha
    obtain ⟨x, hx⟩ := Option.ne_none_iff_exists'.mp hs
    simp [updateServingCheckpoint, hb, hx, slotsPerEpochHardcoded, ha]
  · intro r hb hs ha
    obtain ⟨x, hx⟩ := Option.ne_none_iff_exists'.mp hs
    simp [updateServingCheckpoint, hb, hx, slotsPerEpochHardcoded, ha]

/-- C2 witness: on a store holding block 5 (slot 32, state root 7) and its
state, `updateServingCheckpoint` succeeds and sets `currentBundle`. -/
theorem C2_witness :
    updateServingCheckpoint demoEnv ⟨none, none, [(5, 99)], [7], []⟩ ⟨⟨2, 5⟩⟩ =
      ⟨⟨none, some ⟨⟨2, 5⟩⟩, [(5, 99)], [7], []⟩, none⟩ :=
  (C2_updateServingCheckpoint_spec demoEnv ⟨none, none, [(5, 99)], [7], []⟩
    ⟨⟨2, 5⟩⟩).2.2.2.2 5 (by decide) (by decide) (by decide)

/-- C7: calling `updateServingCheckpoint` with the checkpoint that is already
being served leaves the provider state — `currentBundle`, block store and
state store included — unchanged, whether it succeeds or fails. -/
theorem C7_reapply_serving_noop (env : Env) (s : MState) (cp : Finality)
    (h : s.currentBundle = some cp) :
    (updateServingCheckpoint env s cp).state = s := by
  by_cases he : (updateServingCheckpoint env s cp).err = none
  · rw [(upd_success env s cp he).1, ← h]
  · exact upd_state_of_err env s cp he

/-- C7 witness: re-running the serving update with the served checkpoint on a
concrete state is a no-op. -/
theorem C7_witness :
    (updateServingCheckpoint demoEnv ⟨none, some ⟨⟨2, 5⟩⟩, [(5, 99)], [7], []⟩
      ⟨⟨2, 5⟩⟩).state = ⟨none, some ⟨⟨2, 5⟩⟩, [(5, 99)], [7], []⟩ :=
  C7_reapply_serving_noop demoEnv ⟨none, some ⟨⟨2, 5⟩⟩, [(5, 99)], [7], []⟩ ⟨⟨2, 5⟩⟩ rfl

/-- C9: the by-slot and by-block-root beacon-state queries fetch the block
first and fail with "block not found" when it is absent; when the block is
found they return exactly the state store's lookup by that block's state
root. -/
theorem C9_state_by_block_lookup (env : Env) (s : MState) (slot root : Nat) :
    (blocksGetBySlot env s.blocks slot = none →
      GetBeaconStateBySlot env s slot = .error .blockNotFound) ∧
    (∀ r, blocksGetBySlot env s.blocks slot = some r →
      GetBeaconStateBySlot env s slot =
        .ok (statesGetByStateRoot s.states (env.blockOf r).stateRoot)) ∧
    (blocksGetByRoot s.blocks root = none →
      GetBeaconStateByRoot env s root = .error .blockNotFound) ∧
    (∀ r, blocksGetByRoot s.blocks root = some r →
      GetBeaconStateByRoot env s root =
        .ok (statesGetByStateRoot s.states (env.blockOf r).stateRoot)) := by
  refine ⟨?_, ?_, ?_, ?_⟩
  · intro h
    simp [GetBeaconStateBySlot, GetBlockBySlot, h]
  · intro r h
    simp [GetBeaconStateBySlot, GetBlockBySlot, h]
  · intro h
    simp [GetBeaconStateByRoot, GetBlockByRoot, h]
  · intro r h
    simp [GetBeaconStateByRoot, GetBlockByRoot, h]

/-- The serving phase publishes nothing: the tick's events are exactly the
ones produced by the head-update phase. -/
lemma serve_events (env : Env) (s1 : MState) (evs : List Finality) (majority : Finality) :
    (checkFinalityServe env s1 evs majority).events = evs := by
  unfold checkFinalityServe
  split <;> rfl

/-- The serving phase never touches the `head` field. -/
lemma serve_head (env : Env) (s1 : MState) (evs : List Finality) (majority : Finality) :
    (checkFinalityServe env s1 evs majority).state.head = s1.head := by
  unfold checkFinalityServe
  split
  · exact upd_head_eq env s1 majority
  · rfl

/-- The serving phase never touches the block store. -/
lemma serve_blocks (env : Env) (s1 : MState) (evs : List Finality) (majority : Finality) :
    (checkFinalityServe env s1 evs majority).state.blocks = s1.blocks := by
  unfold checkFinalityServe
  split
  · exact upd_blocks_eq env s1 majority
  · rfl

/-- The serving phase never touches the state store. -/
lemma serve_states (env : Env) (s1 : MState) (evs : List Finality) (majority : Finality) :
    (checkFinalityServe env s1 evs majority).state.states = s1.states := by
  unfold checkFinalityServe
  split
  · exact upd_states_eq env s1 majority
  · rfl

/-- C3: on a finality tick with a successful aggregation, the head is
replaced by the majority and a single `finality_head_updated` event is
published exactly when the majority's finalized root differs from the current
head's finalized root or the head is absent; when the roots are equal the
head is unchanged and nothing is published.  Epochs are never compared: the
root-differs case applies to every pair of epochs, in particular when the
majority's epoch is lower than the head's. -/
theorem C3_head_update_iff_root_change (env : Env) (s : MState) (majority : Finality) :
    (s.head = none →
      (checkFinality env s (some majority)).state.head = some majority ∧
      (checkFinality env s (some majority)).events = [majority]) ∧
    (∀ h, s.head = some h → h.finalized.root ≠ majority.finalized.root →
      (checkFinality env s (some majority)).state.head = some majority ∧
      (checkFinality env s (some majority)).events = [majority]) ∧
    (∀ h, s.head = some h → h.finalized.root = majority.finalized.root →
      (checkFinality env s (some majority)).state.head = s.head ∧
      (checkFinality env s (some majority)).events = []) := by
  refine ⟨?_, ?_, ?_⟩
  · intro hn
    have hd : rootDiffers s.head majority = true := by rw [hn]; rfl
    simp only [checkFinality, hd, if_true]
    exact ⟨by rw [serve_head], serve_events env _ _ majority⟩
  · intro h hh hne
    have hd : rootDiffers s.head majority = true := by
      rw [hh]
      simpa [rootDiffers, bne_iff_ne] using hne
    simp only [checkFinality, hd, if_true]
    exact ⟨by rw [serve_head], serve_events env _ _ majority⟩
  · intro h hh he
    have hd : rootDiffers s.head majority = false := by
      rw [hh]
      simpa [rootDiffers, bne_iff_ne] using he
    simp only [checkFinality, hd, Bool.false_eq_true, if_false]
    exact ⟨serve_head env s [] majority, serve_events env s [] majority⟩

/-- C3 witness: a majority at a lower epoch (1) but a new root (5) replaces a
head at epoch 9 with root 3 and publishes one event. -/
theorem C3_witness :
    (checkFinality demoEnv ⟨some ⟨⟨9, 3⟩⟩, none, [], [], []⟩ (some ⟨⟨1, 5⟩⟩)).state.head =
      some ⟨⟨1, 5⟩⟩ ∧
    (checkFinality demoEnv ⟨some ⟨⟨9, 3⟩⟩, none, [], [], []⟩ (some ⟨⟨1, 5⟩⟩)).events =
      [⟨⟨1, 5⟩⟩] :=
  (C3_head_update_iff_root_change demoEnv ⟨some ⟨⟨9, 3⟩⟩, none, [], [], []⟩ ⟨⟨1, 5⟩⟩).2.1
    ⟨⟨9, 3⟩⟩ rfl (by decide)

/-- C10: within one tick in which the majority root differs from both the
head and the serving bundle, a failing serving update does not roll back the
head update: the head keeps the majority value, the single published event
stands, the tick returns the serving-update error, and `currentBundle` and
the stores are unchanged. -/
theorem C10_head_persists_on_serving_failure (env : Env) (s : MState)
    (majority : Finality) (e : UErr)
    (hHead : rootDiffers s.head majority = true)
    (hBundle : rootDiffers s.currentBundle majority = true)
    (hUpd : (updateServingCheckpoint env { s with head := some majority } majority).err =
      some e) :
    (checkFinality env s (some majority)).state.head = some majority ∧
    (checkFinality env s (some majority)).events = [majority] ∧
    (checkFinality env s (some majority)).err = some e ∧
    (checkFinality env s (some majority)).state.currentBundle = s.currentBundle ∧
    (checkFinality env s (some majority)).state.blocks = s.blocks ∧
    (checkFinality env s (some majority)).state.states = s.states := by
  have hstate : (updateServingCheckpoint env { s with head := some majority } majority).state =
      { s with head := some majority } :=
    upd_state_of_err env _ majority (by rw [hUpd]; exact Option.noConfusion)
  simp only [checkFinality, hHead, if_true, checkFinalityServe]
  rw [if_pos (show rootDiffers (MState.currentBundle { s with head := some majority })
    majority = true from hBundle)]
  refine ⟨?_, rfl, hUpd, ?_, ?_, ?_⟩ <;> rw [hstate]

/-- C10 witness: with an empty store, a fresh majority updates the head and
publishes, while the serving update fails with "block not found" and
`currentBundle` stays absent. -/
theorem C10_witness :
    (checkFinality demoEnv ⟨none, none, [], [], []⟩ (some ⟨⟨2, 5⟩⟩)).state.head =
      some ⟨⟨2, 5⟩⟩ ∧
    (checkFinality demoEnv ⟨none, none, [], [], []⟩ (some ⟨⟨2, 5⟩⟩)).events = [⟨⟨2, 5⟩⟩] ∧
    (checkFinality demoEnv ⟨none, none, [], [], []⟩ (some ⟨⟨2, 5⟩⟩)).err =
      some UErr.blockNotFound ∧
    (checkFinality demoEnv ⟨none, none, [], [], []⟩ (some ⟨⟨2, 5⟩⟩)).state.currentBundle =
      none ∧
    (checkFinality demoEnv ⟨none, none, [], [], []⟩ (some ⟨⟨2, 5⟩⟩)).state.blocks = [] ∧
    (checkFinality demoEnv ⟨none, none, [], [], []⟩ (some ⟨⟨2, 5⟩⟩)).state.states = [] :=
  C10_head_persists_on_serving_failure demoEnv ⟨none, none, [], [], []⟩ ⟨⟨2, 5⟩⟩
    UErr.blockNotFound (by decide) (by decide) (by decide)

/-- C9 witness: on a store holding block 5 but not its state, the by-slot
query returns the (empty) state-store lookup keyed by block 5's state root,
and on an empty store it fails with "block not found". -/
theorem C9_witness :
    GetBeaconStateBySlot demoEnv ⟨none, none, [(5, 99)], [], []⟩ 32 =
      .ok (statesGetByStateRoot ([] : StateStore) 7) ∧
    GetBeaconStateByRoot demoEnv ⟨none, none, [], [], []⟩ 5 =
      .error .blockNotFound :=
  ⟨by
    have h := (C9_state_by_block_lookup demoEnv ⟨none, none, [(5, 99)], [], []⟩ 32 0).2.1
      5 (by decide)
    simpa using h,
   (C9_state_by_block_lookup demoEnv ⟨none, none, [], [], []⟩ 0 5).2.2.1 (by decide)⟩

/-- C8: `checkGenesis` returns success — contacting no upstream and leaving
the state (queue included) unchanged — when the block store holds a slot-0
block and the state store holds that block's state; otherwise it fails when
no ready nodes exist; otherwise it fetches the genesis block from a ready
upstream, obtains its root, and enqueues a bundle download for that root
unless one is already queued. -/
theorem C8_checkGenesis_spec (env : Env) (s : MState) (ready : Bool)
    (fetched : Option Nat) :
    (∀ r, blocksGetBySlot env s.blocks 0 = some r →
      statesGetByStateRoot s.states (env.blockOf r).stateRoot ≠ none →
      checkGenesis env s ready fetched = ⟨s, false, none⟩) ∧
    (genesisStored env s = false → ready = false →
      checkGenesis env s ready fetched = ⟨s, false, some GErr.noNodesReady⟩) ∧
    (∀ root, genesisStored env s = false → ready = true → fetched = some root →
      s.queue.contains root = true →
      checkGenesis env s ready fetched = ⟨s, true, none⟩) ∧
    (∀ root, genesisStored env s = false → ready = true → fetched = some root →
      s.queue.contains root = false →
      checkGenesis env s ready fetched = ⟨{ s with queue := root :: s.queue }, true, none⟩) := by
  refine ⟨?_, ?_, ?_, ?_⟩
  · intro r hb hs
    have hg : genesisStored env s = true := by
      unfold genesisStored
      rw [hb]
      exact Option.ne_none_iff_isSome.mp hs
    unfold checkGenesis
    rw [if_pos hg]
  · intro hg hr
    unfold checkGenesis
    rw [if_neg (by simp [hg]), hr]
    rfl
  · intro root hg hr hf hq
    have hq' : root ∈ s.queue := by simpa using hq
    unfold checkGenesis
    rw [if_neg (by simp [hg]), hr, hf]
    simp [hq']
  · intro root hg hr hf hq
    have hq' : root ∉ s.queue := by simpa using hq
    unfold checkGenesis
    rw [if_neg (by simp [hg]), hr, hf]
    simp [hq']

/-- C8 witness: on an empty store with a ready upstream returning genesis
root 1, `checkGenesis` contacts the upstream and enqueues root 1. -/
theorem C8_witness :
    checkGenesis demoEnv ⟨none, none, [], [], []⟩ true (some 1) =
      ⟨⟨none, none, [], [], [1]⟩, true, none⟩ :=
  (C8_checkGenesis_spec demoEnv ⟨none, none, [], [], []⟩ true (some 1)).2.2.2 1
    (by decide) rfl rfl (by decide)

/-- A block universe and an upstream whose `GetSpec` reports
`SlotsPerEpoch = 64`: root 5 holds an epoch-boundary block for the hardcoded
32 (slot 32, state root 7, yet `32 % 64 ≠ 0`); every root `r ≥ 1000` holds
the block at slot `r - 1000` that the upstream serves for that slot. -/
def spe64Env : Env :=
  ⟨fun r => if r == 5 then ⟨32, 7⟩ else ⟨r - 1000, r⟩⟩

/-- The `SlotsPerEpoch = 64` data provider for the `spe64Env` universe. -/
def spe64Hist : HistEnv :=
  ⟨64, 12, 0, fun sl => .found (sl + 1000)⟩

/-- C6: the serving-alignment check divides by the hardcoded constant 32 —
given block and state, the update succeeds exactly when `slot % 32 = 0`, no
upstream-reported value entering the definition — while the historical
back-fill derives its slots from the upstream-reported `SlotsPerEpoch`: with
a reported value of 64 at epoch 10 it fetches the nine slots `640 - 64*i`,
and the same provider's serving update accepts a slot-32 block even though
`32 % 64 ≠ 0`. -/
theorem C6_hardcoded_alignment_vs_spec_spe (env : Env) (s : MState) (cp : Finality)
    (r : Nat) :
    (blocksGetByRoot s.blocks cp.finalized.root = some r →
      statesGetByStateRoot s.states (env.blockOf r).stateRoot ≠ none →
      ((updateServingCheckpoint env s cp).err = none ↔ (env.blockOf r).slot % 32 = 0)) ∧
    ((fetchHistoricalCheckpoints spe64Env (some spe64Hist) ⟨none, none, [], [], []⟩ 0
        ⟨⟨10, 5⟩⟩).added.map Prod.fst =
      [576, 512, 448, 384, 320, 256, 192, 128, 64] ∧
     (updateServingCheckpoint spe64Env ⟨none, none, [(5, 99)], [7], []⟩ ⟨⟨10, 5⟩⟩).err =
      none ∧
     (32 : Nat) % 64 ≠ 0) := by
  constructor
  · intro hb hs
    obtain ⟨hrx, _⟩ := blocksGetByRoot_eq_some _ _ _ hb
    subst hrx
    constructor
    · intro he
      simpa [slotsPerEpochHardcoded] using (upd_success env s cp he).2.2.2
    · intro ha
      obtain ⟨x, hx⟩ := Option.ne_none_iff_exists'.mp hs
      simp [updateServingCheckpoint, hb, hx, slotsPerEpochHardcoded, ha]
  · refine ⟨by decide, by decide, by decide⟩

/-- C6 witness: with the `SlotsPerEpoch = 64` provider's universe, the
serving update of the slot-32 block succeeds. -/
theorem C6_witness :
    (updateServingCheckpoint spe64Env ⟨none, none, [(5, 99)], [7], []⟩ ⟨⟨10, 5⟩⟩).err =
      none :=
  ((C6_hardcoded_alignment_vs_spec_spe spe64Env ⟨none, none, [(5, 99)], [7], []⟩ ⟨⟨10, 5⟩⟩
    5).1 (by decide) (by decide)).mpr (by decide)

/-- C4: a periodic finality tick does not access the slot-0 (genesis)
entries.  On a state holding the genesis block (root 1, slot 0, state root 2)
and a serving bundle at root 5: a steady-state tick (majority equal to head
and serving bundle) issues no store access at all, a tick that re-attempts
the serving update accesses only the majority entries (root 5 and state 7),
and it is `checkGenesis` — called once, 5 seconds after start, not on the
periodic tick — whose guard touches the slot-0 block and its state. -/
theorem C4_tick_does_not_touch_genesis :
    checkFinalityAccesses demoEnv
      ⟨some ⟨⟨2, 5⟩⟩, some ⟨⟨2, 5⟩⟩, [(1, 50), (5, 99)], [2, 7], []⟩ (some ⟨⟨2, 5⟩⟩) = [] ∧
    checkFinalityAccesses demoEnv
      ⟨some ⟨⟨2, 5⟩⟩, none, [(1, 50), (5, 99)], [2, 7], []⟩ (some ⟨⟨2, 5⟩⟩) =
      [.blockByRoot 5, .stateByStateRoot 7] ∧
    genesisStored demoEnv ⟨some ⟨⟨2, 5⟩⟩, some ⟨⟨2, 5⟩⟩, [(1, 50), (5, 99)], [2, 7], []⟩ =
      true ∧
    checkGenesisAccesses demoEnv
      ⟨some ⟨⟨2, 5⟩⟩, some ⟨⟨2, 5⟩⟩, [(1, 50), (5, 99)], [2, 7], []⟩ =
      [.blockBySlot 0, .stateByStateRoot 2] := by
  refine ⟨by decide, by decide, by decide, by decide⟩

/-- Consing an entry onto the block store preserves root presence. -/
lemma blocksHasRoot_cons (p : Nat × Nat) (bs : BlockStore) (r : Nat)
    (h : blocksHasRoot bs r = true) : blocksHasRoot (p :: bs) r = true := by
  unfold blocksHasRoot at h ⊢
  rw [List.any_cons, h, Bool.or_true]

/-- Prepending entries onto the block store preserves root presence. -/
lemma blocksHasRoot_append (l bs : BlockStore) (r : Nat)
    (h : blocksHasRoot bs r = true) : blocksHasRoot (l ++ bs) r = true := by
  unfold blocksHasRoot at h ⊢
  rw [List.any_append, h, Bool.or_true]

/-- Consing a root onto the state store preserves presence. -/
lemma statesContains_cons (x : Nat) (ss : StateStore) (sr : Nat)
    (h : ss.contains sr = true) : (x :: ss).contains sr = true := by
  have h' : sr ∈ ss := by simpa using h
  simpa using Or.inr h'

/-- `servingOK` ignores the `head` field. -/
lemma servingOK_set_head (env : Env) (s : MState) (x : Option Finality)
    (h : servingOK env s) : servingOK env { s with head := x } :=
  fun cp hcp => h cp hcp

/-- `servingOK` ignores the download queue. -/
lemma servingOK_set_queue (env : Env) (s : MState) (q : List Nat)
    (h : servingOK env s) : servingOK env { s with queue := q } :=
  fun cp hcp => h cp hcp

/-- `servingOK` is preserved when a block is admitted to the block store. -/
lemma servingOK_cons_block (env : Env) (s : MState) (r e : Nat)
    (h : servingOK env s) : servingOK env { s with blocks := (r, e) :: s.blocks } := by
  intro cp hcp
  obtain ⟨h1, h2, h3⟩ := h cp hcp
  exact ⟨blocksHasRoot_cons _ _ _ h1, h2, h3⟩

/-- `servingOK` is preserved when blocks are prepended to the block store. -/
lemma servingOK_append_blocks (env : Env) (s : MState) (l : BlockStore)
    (h : servingOK env s) : servingOK env { s with blocks := l ++ s.blocks } := by
  intro cp hcp
  obtain ⟨h1, h2, h3⟩ := h cp hcp
  exact ⟨blocksHasRoot_append _ _ _ h1, h2, h3⟩

/-- `servingOK` is preserved when a state is admitted to the state store. -/
lemma servingOK_cons_state (env : Env) (s : MState) (sr : Nat)
    (h : servingOK env s) : servingOK env { s with states := sr :: s.states } := by
  intro cp hcp
  obtain ⟨h1, h2, h3⟩ := h cp hcp
  exact ⟨h1, statesContains_cons _ _ _ h2, h3⟩

/-- The serving phase preserves `servingOK`: it either leaves `currentBundle`
alone, or sets it having just checked exactly the three closure conditions. -/
lemma serve_servingOK (env : Env) (s1 : MState) (evs : List Finality)
    (majority : Finality) (h : servingOK env s1) :
    servingOK env (checkFinalityServe env s1 evs majority).state := by
  unfold checkFinalityServe
  split
  · by_cases he : (updateServingCheckpoint env s1 majority).err = none
    · obtain ⟨hst, hb, hs, ha⟩ := upd_success env s1 majority he
      rw [hst]
      intro cp hcp
      have hcp' : majority = cp := by simpa using hcp
      subst hcp'
      exact ⟨hb, hs, ha⟩
    · rw [upd_state_of_err env s1 majority he]
      exact h
  · exact h

/-- One `checkFinality` tick preserves `servingOK`. -/
lemma tick_servingOK (env : Env) (s : MState) (agg : Option Finality)
    (h : servingOK env s) : servingOK env (checkFinality env s agg).state := by
  cases agg with
  | none => exact h
  | some majority =>
    simp only [checkFinality]
    split
    · exact serve_servingOK env _ _ majority (servingOK_set_head env s (some majority) h)
    · exact serve_servingOK env _ _ majority h

/-- `checkGenesis` either leaves the provider state unchanged or only
enqueues a root. -/
lemma genesis_state_cases (env : Env) (s : MState) (ready : Bool)
    (fetched : Option Nat) :
    (checkGenesis env s ready fetched).state = s ∨
    ∃ root, (checkGenesis env s ready fetched).state =
      { s with queue := root :: s.queue } := by
  unfold checkGenesis
  split
  · exact Or.inl rfl
  · split
    · exact Or.inl rfl
    · split
      · exact Or.inl rfl
      · split
        · exact Or.inl rfl
        · exact Or.inr ⟨_, rfl⟩

/-- `histLoop` only prepends entries to the block store; `head`,
`currentBundle`, `states` and `queue` are untouched. -/
lemma histLoop_state (env : Env) (he : HistEnv) (now cs : Nat) :
    ∀ (idxs : List Nat) (s : MState),
      ∃ l, (histLoop env he now cs idxs s).state = { s with blocks := l ++ s.blocks } := by
  intro idxs
  induction idxs with
  | nil => exact fun s => ⟨[], rfl⟩
  | cons i rest ih =>
    intro s
    unfold histLoop
    split
    · exact ih s
    · split
      · exact ih s
      · split
        · exact ⟨[], rfl⟩
        · exact ih s
        · rename_i r _
          obtain ⟨l, hl⟩ :=
            ih { s with blocks := (r, histExpiration he now (histSlot he cs i)) :: s.blocks }
          refine ⟨l ++ [(r, histExpiration he now (histSlot he cs i))], ?_⟩
          rw [hl]
          simp [List.append_assoc]

/-- `fetchHistoricalCheckpoints` only prepends entries to the block store. -/
lemma hist_state (env : Env) (provider : Option HistEnv) (s : MState) (now : Nat)
    (cp : Finality) :
    ∃ l, (fetchHistoricalCheckpoints env provider s now cp).state =
      { s with blocks := l ++ s.blocks } := by
  cases provider with
  | none => exact ⟨[], rfl⟩
  | some he => exact histLoop_state env he now _ _ s

/-- `checkGenesis` preserves `servingOK`. -/
lemma genesis_servingOK (env : Env) (s : MState) (ready : Bool) (fetched : Option Nat)
    (h : servingOK env s) : servingOK env (checkGenesis env s ready fetched).state := by
  rcases genesis_state_cases env s ready fetched with h1 | ⟨root, h1⟩
  · rw [h1]; exact h
  · rw [h1]; exact servingOK_set_queue env s _ h

/-- `fetchHistoricalCheckpoints` preserves `servingOK`. -/
lemma hist_servingOK (env : Env) (provider : Option HistEnv) (s : MState) (now : Nat)
    (cp : Finality) (h : servingOK env s) :
    servingOK env (fetchHistoricalCheckpoints env provider s now cp).state := by
  obtain ⟨l, hl⟩ := hist_state env provider s now cp
  rw [hl]
  exact servingOK_append_blocks env s l h

/-- C1 (amended): in every state reachable from startup by finality ticks,
the genesis check, historical back-fill, and downloader admissions — that is,
as long as no cache eviction has occurred — whenever `currentBundle` equals a
finality `F`, the block store contains a block with root `F.Finalized.Root`,
the state store contains a state with root equal to that block's
`StateRoot()`, and that block's slot is divisible by 32.  (As claimed for
arbitrary reachable states the property fails: the bounded caches may evict
the serving artifacts afterwards, see the counterexample.) -/
theorem C1_serving_closure_no_eviction (env : Env) (s : MState)
    (h : ReachableNE env s) : servingOK env s := by
  induction h with
  | init => exact fun cp hcp => Option.noConfusion hcp
  | step _ hstep ih =>
    cases hstep with
    | tick agg => exact tick_servingOK env _ agg ih
    | genesis ready fetched => exact genesis_servingOK env _ ready fetched ih
    | historical provider now cp => exact hist_servingOK env provider _ now cp ih
    | enqueue r => exact servingOK_set_queue env _ _ ih
    | addBlock r e => exact servingOK_cons_block env _ r e ih
    | addState sr => exact servingOK_cons_state env _ sr ih

/-- C1 witness: the state reached by admitting block 5 (slot 32, state root
7) and its state and then running a successful serving tick satisfies the
closure. -/
theorem C1_serving_closure_witness :
    servingOK demoEnv ⟨some ⟨⟨2, 5⟩⟩, some ⟨⟨2, 5⟩⟩, [(5, 99)], [7], []⟩ := by
  apply C1_serving_closure_no_eviction demoEnv
  have h1 : ReachableNE demoEnv ⟨none, none, [(5, 99)], [], []⟩ :=
    ReachableNE.step ReachableNE.init (StepNE.addBlock initialState 5 99)
  have h2 : ReachableNE demoEnv ⟨none, none, [(5, 99)], [7], []⟩ :=
    ReachableNE.step h1 (StepNE.addState ⟨none, none, [(5, 99)], [], []⟩ 7)
  have hstep := @StepNE.tick demoEnv ⟨none, none, [(5, 99)], [7], []⟩
    (some ⟨⟨2, 5⟩⟩)
  rw [show (checkFinality demoEnv ⟨none, none, [(5, 99)], [7], []⟩
      (some ⟨⟨2, 5⟩⟩)).state = ⟨some ⟨⟨2, 5⟩⟩, some ⟨⟨2, 5⟩⟩, [(5, 99)], [7], []⟩ from
    by decide] at hstep
  exact ReachableNE.step h2 hstep

/-- C1 counterexample: a reachable state — reached by admitting block 5
(slot 32, state root 7) with its state, serving it on a tick, and then having
the bounded block cache evict the non-genesis block 5 — in which
`currentBundle` equals the finality `(epoch 2, root 5)` but the block store
no longer contains a block with root 5, refuting the claim for arbitrary
reachable states and times. -/
theorem C1_eviction_counterexample :
    Reachable demoEnv ⟨some ⟨⟨2, 5⟩⟩, some ⟨⟨2, 5⟩⟩, [], [7], []⟩ ∧
    (⟨some ⟨⟨2, 5⟩⟩, some ⟨⟨2, 5⟩⟩, [], [7], []⟩ : MState).currentBundle =
      some ⟨⟨2, 5⟩⟩ ∧
    blocksGetByRoot
      (⟨some ⟨⟨2, 5⟩⟩, some ⟨⟨2, 5⟩⟩, [], [7], []⟩ : MState).blocks
      ((⟨⟨2, 5⟩⟩ : Finality).finalized.root) = none ∧
    ¬ servingOK demoEnv ⟨some ⟨⟨2, 5⟩⟩, some ⟨⟨2, 5⟩⟩, [], [7], []⟩ := by
  refine ⟨?_, rfl, by decide, ?_⟩
  · have h1 : Reachable demoEnv ⟨none, none, [(5, 99)], [], []⟩ :=
      Reachable.step Reachable.init (Step.noEvict (StepNE.addBlock initialState 5 99))
    have h2 : Reachable demoEnv ⟨none, none, [(5, 99)], [7], []⟩ :=
      Reachable.step h1 (Step.noEvict (StepNE.addState ⟨none, none, [(5, 99)], [], []⟩ 7))
    have hstep := Step.noEvict (@StepNE.tick demoEnv
      ⟨none, none, [(5, 99)], [7], []⟩ (some ⟨⟨2, 5⟩⟩))
    rw [show (checkFinality demoEnv ⟨none, none, [(5, 99)], [7], []⟩
        (some ⟨⟨2, 5⟩⟩)).state = ⟨some ⟨⟨2, 5⟩⟩, some ⟨⟨2, 5⟩⟩, [(5, 99)], [7], []⟩ from
      by decide] at hstep
    have h3 : Reachable demoEnv ⟨some ⟨⟨2, 5⟩⟩, some ⟨⟨2, 5⟩⟩, [(5, 99)], [7], []⟩ :=
      Reachable.step h2 hstep
    have hevict := @Step.evictBlock demoEnv
      ⟨some ⟨⟨2, 5⟩⟩, some ⟨⟨2, 5⟩⟩, [(5, 99)], [7], []⟩ 5 (by decide)
    rw [show ({ (⟨some ⟨⟨2, 5⟩⟩, some ⟨⟨2, 5⟩⟩, [(5, 99)], [7], []⟩ : MState) with
        blocks := (⟨some ⟨⟨2, 5⟩⟩, some ⟨⟨2, 5⟩⟩, [(5, 99)], [7], []⟩ : MState).blocks.filter
          (fun p => p.1 != 5) } : MState) =
        ⟨some ⟨⟨2, 5⟩⟩, some ⟨⟨2, 5⟩⟩, [], [7], []⟩ from by decide] at hevict
    exact Reachable.step h3 hevict
  · intro hOK
    exact absurd (hOK ⟨⟨2, 5⟩⟩ rfl).1 (by decide)

/-- A cons whose block's slot is different does not affect a by-slot lookup. -/
lemma blocksGetBySlot_cons_ne (env : Env) (r e sl : Nat) (bs : BlockStore)
    (h : (env.blockOf r).slot ≠ sl) :
    blocksGetBySlot env ((r, e) :: bs) sl = blocksGetBySlot env bs sl := by
  unfold blocksGetBySlot
  rw [List.find?_cons_of_neg _ (by simp [h])]

/-- The claim's description of one back-fill run, as a function of the
initial block store `bs`: for each loop index, skip slot 0 and slots already
present in `bs`, otherwise record the fetched slot with its §6 expiration. -/
def histExpected (env : Env) (he : HistEnv) (now cs : Nat) (bs : BlockStore) :
    List Nat → List (Nat × Nat)
  | [] => []
  | i :: rest =>
    if histSlot he cs i = 0 then histExpected env he now cs bs rest
    else if (blocksGetBySlot env bs (histSlot he cs i)).isSome then
      histExpected env he now cs bs rest
    else
      (histSlot he cs i, histExpiration he now (histSlot he cs i)) ::
        histExpected env he now cs bs rest

/-- One-step unfolding of `histExpected`. -/
lemma histExpected_cons (env : Env) (he : HistEnv) (now cs : Nat) (bs : BlockStore)
    (i : Nat) (rest : List Nat) :
    histExpected env he now cs bs (i :: rest) =
      if histSlot he cs i = 0 then histExpected env he now cs bs rest
      else if (blocksGetBySlot env bs (histSlot he cs i)).isSome then
        histExpected env he now cs bs rest
      else
        (histSlot he cs i, histExpiration he now (histSlot he cs i)) ::
          histExpected env he now cs bs rest := rfl

/-- `histExpected` only depends on the by-slot lookups of the requested
nonzero slots. -/
lemma histExpected_congr (env : Env) (he : HistEnv) (now cs : Nat)
    (bs bs' : BlockStore) :
    ∀ idxs : List Nat,
      (∀ i ∈ idxs, histSlot he cs i ≠ 0 →
        blocksGetBySlot env bs (histSlot he cs i) =
          blocksGetBySlot env bs' (histSlot he cs i)) →
      histExpected env he now cs bs idxs = histExpected env he now cs bs' idxs := by
  intro idxs
  induction idxs with
  | nil => intro _; rfl
  | cons i rest ih =>
    intro h
    have ihr := ih (fun j hj hj0 => h j (List.mem_cons_of_mem i hj) hj0)
    unfold histExpected
    by_cases h0 : histSlot he cs i = 0
    · rw [if_pos h0, if_pos h0, ihr]
    · have hi := h i (List.mem_cons_self i rest) h0
      rw [if_neg h0, if_neg h0, hi, ihr]

/-- Characterization of the back-fill loop when every fetch succeeds and
returns the block of the requested slot, and the requested slots are
pairwise distinct: it never errors, the admitted `(slot, expiration)` pairs
are exactly `histExpected` over the initial store, and the final state is the
initial one with exactly the fetched blocks prepended. -/
lemma histLoop_char (env : Env) (he : HistEnv) (now cs : Nat) (f : Nat → Nat)
    (hf : ∀ sl, he.fetch sl = FetchRes.found (f sl))
    (hslot : ∀ sl, (env.blockOf (f sl)).slot = sl) :
    ∀ idxs : List Nat, idxs.Nodup →
      (∀ i ∈ idxs, ∀ j ∈ idxs, histSlot he cs i = histSlot he cs j → i = j) →
      ∀ s : MState,
        (histLoop env he now cs idxs s).err = none ∧
        (histLoop env he now cs idxs s).added =
          histExpected env he now cs s.blocks idxs ∧
        (histLoop env he now cs idxs s).state =
          { s with blocks :=
              ((histLoop env he now cs idxs s).added.map
                (fun p => (f p.1, p.2))).reverse ++ s.blocks } := by
  intro idxs
  induction idxs with
  | nil => exact fun _ _ s => ⟨rfl, rfl, rfl⟩
  | cons i rest ih =>
    intro hnd hinj s
    have hndr : rest.Nodup := (List.nodup_cons.mp hnd).2
    have hnotmem : i ∉ rest := (List.nodup_cons.mp hnd).1
    have hinjr : ∀ a ∈ rest, ∀ b ∈ rest, histSlot he cs a = histSlot he cs b → a = b :=
      fun a ha b hb =>
        hinj a (List.mem_cons_of_mem i ha) b (List.mem_cons_of_mem i hb)
    simp only [histLoop]
    by_cases hd : histSlot he cs i = 0
    · rw [if_pos hd]
      obtain ⟨e1, e2, e3⟩ := ih hndr hinjr s
      have hexp : histExpected env he now cs s.blocks (i :: rest) =
          histExpected env he now cs s.blocks rest := by
        rw [histExpected_cons, if_pos hd]
      exact ⟨e1, by rw [hexp]; exact e2, e3⟩
    · rw [if_neg hd]
      split
      · rename_i x hbs
        obtain ⟨e1, e2, e3⟩ := ih hndr hinjr s
        have hexp : histExpected env he now cs s.blocks (i :: rest) =
            histExpected env he now cs s.blocks rest := by
          rw [histExpected_cons, if_neg hd, if_pos (by rw [hbs]; rfl)]
        exact ⟨e1, by rw [hexp]; exact e2, e3⟩
      · rename_i hbs
        split
        · rename_i hfetch
          rw [hf (histSlot he cs i)] at hfetch
          exact FetchRes.noConfusion hfetch
        · rename_i hfetch
          rw [hf (histSlot he cs i)] at hfetch
          exact FetchRes.noConfusion hfetch
        · rename_i r hfetch
          rw [hf (histSlot he cs i)] at hfetch
          have hr : f (histSlot he cs i) = r := by
            injection hfetch
          subst hr
          obtain ⟨e1, e2, e3⟩ := ih hndr hinjr
            { s with blocks :=
                (f (histSlot he cs i), histExpiration he now (histSlot he cs i)) ::
                  s.blocks }
          have hpres : ∀ j ∈ rest, histSlot he cs j ≠ 0 →
              blocksGetBySlot env
                ((f (histSlot he cs i), histExpiration he now (histSlot he cs i)) ::
                  s.blocks) (histSlot he cs j) =
                blocksGetBySlot env s.blocks (histSlot he cs j) := by
            intro j hj _
            refine blocksGetBySlot_cons_ne env _ _ _ s.blocks ?_
            rw [hslot]
            intro heq
            exact hnotmem
              ((hinj i (List.mem_cons_self i rest) j (List.mem_cons_of_mem i hj) heq) ▸ hj)
          have hcongr : histExpected env he now cs
              ((f (histSlot he cs i), histExpiration he now (histSlot he cs i)) ::
                s.blocks) rest =
              histExpected env he now cs s.blocks rest :=
            histExpected_congr env he now cs _ _ rest hpres
          have hexp : histExpected env he now cs s.blocks (i :: rest) =
              (histSlot he cs i, histExpiration he now (histSlot he cs i)) ::
                histExpected env he now cs s.blocks rest := by
            rw [histExpected_cons, if_neg hd, if_neg (by rw [hbs]; simp)]
          refine ⟨e1, ?_, ?_⟩
          · rw [hexp, e2]
            rw [hcongr]
          · rw [e3, e2, hcongr]
            simp [List.append_assoc]

/-- C5: with a ready data provider reporting `SlotsPerEpoch` and every
by-slot fetch returning the block of the requested slot (requested slots
pairwise distinct), the back-fill handler for a checkpoint at epoch `E`
computes `current_slot = E * SlotsPerEpoch` (`uint64`) and, for `i = 1..9`,
the slot `current_slot - i*SlotsPerEpoch`; it errors on nothing, skips slot 0
and slots already present in the block store, and otherwise fetches the block
at each remaining slot and prepends it to the block store with the §6
expiration — the admitted pairs being exactly the `histExpected` reference
list. -/
theorem C5_historical_backfill_spec (env : Env) (he : HistEnv) (s : MState)
    (now : Nat) (cp : Finality) (f : Nat → Nat)
    (hf : ∀ sl, he.fetch sl = FetchRes.found (f sl))
    (hslot : ∀ sl, (env.blockOf (f sl)).slot = sl)
    (hinj : ∀ i ∈ List.range' 1 9, ∀ j ∈ List.range' 1 9,
      histSlot he (u64 (cp.finalized.epoch * he.slotsPerEpoch)) i =
        histSlot he (u64 (cp.finalized.epoch * he.slotsPerEpoch)) j → i = j) :
    (fetchHistoricalCheckpoints env (some he) s now cp).err = none ∧
    (fetchHistoricalCheckpoints env (some he) s now cp).added =
      histExpected env he now (u64 (cp.finalized.epoch * he.slotsPerEpoch)) s.blocks
        (List.range' 1 9) ∧
    (fetchHistoricalCheckpoints env (some he) s now cp).state =
      { s with blocks :=
          ((fetchHistoricalCheckpoints env (some he) s now cp).added.map
            (fun p => (f p.1, p.2))).reverse ++ s.blocks } :=
  histLoop_char env he now (u64 (cp.finalized.epoch * he.slotsPerEpoch)) f hf hslot
    (List.range' 1 9) (by decide) hinj s

/-- A block universe for the epoch-100 scenario: the block at root
`sl + 1000` sits at slot `sl`. -/
def c5Env : Env := ⟨fun r => ⟨r - 1000, r + 10000⟩⟩

/-- The epoch-100 data provider: `SlotsPerEpoch = 32`, `SecondsPerSlot = 12`,
genesis time 0, and the block served for slot `sl` has root `sl + 1000`. -/
def c5Hist : HistEnv := ⟨32, 12, 0, fun sl => .found (sl + 1000)⟩

/-- C5 witness: on a head update at epoch 100 with `SlotsPerEpoch = 32` and
an empty store, the handler fetches exactly the slots `3168, 3136, ..., 2912`
(in that order), each admitted with its §6 expiration. -/
theorem C5_witness :
    (fetchHistoricalCheckpoints c5Env (some c5Hist) ⟨none, none, [], [], []⟩ 0
      ⟨⟨100, 9⟩⟩).err = none ∧
    (fetchHistoricalCheckpoints c5Env (some c5Hist) ⟨none, none, [], [], []⟩ 0
      ⟨⟨100, 9⟩⟩).added =
      [(3168, 38400), (3136, 38016), (3104, 37632), (3072, 37248), (3040, 36864),
       (3008, 36480), (2976, 36096), (2944, 35712), (2912, 35328)] := by
  have h := C5_historical_backfill_spec c5Env c5Hist ⟨none, none, [], [], []⟩ 0
    ⟨⟨100, 9⟩⟩ (fun sl => sl + 1000) (fun sl => rfl)
    (fun sl => by simp [c5Env]) (by decide)
  exact ⟨h.1, h.2.1.trans (by decide)⟩

end Checkpointz
